import Mathlib

/-!
# git-remote-ipns: the IPNS handler (`cmd/git-remote-ipns/ipns.go`)

A shallow embedding of `IpnsHandler` and of the collaborators it talks to.

* Go `string` is `String`; Go `[]byte` payloads are `Bytes` (a list of byte values).
* A Go `(T, error)` result is `Except GoError T`, except for `Shell.PatchLink`, whose
  two results are kept as a pair because the handler stores the first one into
  `h.currentHash` before it looks at the second.
* The collaborators (storage shell, tracker, repository / push walk) are records of
  response functions; every call the handler makes on them is appended to a trace,
  so that "issues a patch", "writes no tracker record" are statements about the trace.
* The recursive walker `paths` lists through the shell; it is given fuel, and running
  out of fuel is reported separately from every result the Go function can return;
  `paths_wellFormed` and `paths_fuel_add` give the fuel that suffices.
* A Go map is a list of key-value pairs with distinct keys; the order in which a
  `range` over it yields them is a choice of the run (`Env.rangeOrder`).
-/

set_option autoImplicit false

namespace GitRemoteIpns

/-! ## Go library helpers -/

/-- Go `[]byte`. -/
abbrev Bytes := List Nat

/-- Go `strings.HasPrefix(s, pre)`. -/
def hasPrefix (s pre : String) : Bool :=
  pre.data.isPrefixOf s.data

/-- Go `strings.TrimPrefix(s, pre)`. -/
def trimPrefix (s pre : String) : String :=
  if hasPrefix s pre then String.mk (s.data.drop pre.data.length) else s

/-- The scan of `strings.Contains`: does some suffix of the text start with `sub`. -/
def containsAux (sub : List Char) : List Char → Bool
  | [] => sub.isPrefixOf []
  | c :: cs => sub.isPrefixOf (c :: cs) || containsAux sub cs

/-- Go `strings.Contains(s, sub)`. -/
def contains (s sub : String) : Bool :=
  containsAux sub.data s.data

/-- Go `strings.Split(s, "/")` on the characters of `s`. -/
def splitSlash : List Char → List (List Char)
  | [] => [[]]
  | c :: cs =>
    if c = '/' then [] :: splitSlash cs
    else
      match splitSlash cs with
      | [] => [[c]]
      | hd :: tl => (c :: hd) :: tl

/-- One path element of Go `path.Clean`, acting on the stack of kept elements
(innermost first): empty and `.` elements are dropped, `..` removes the previous
element when there is one to remove, is dropped at the root, and is kept otherwise. -/
def cleanStep (rooted : Bool) (out : List (List Char)) (comp : List Char) : List (List Char) :=
  if comp = [] ∨ comp = ['.'] then out
  else if comp = ['.', '.'] then
    match out with
    | [] => if rooted then [] else [comp]
    | top :: rest =>
      if top = ['.', '.'] then (if rooted then out else comp :: out) else rest
  else comp :: out

/-- Go `path.Clean` on the characters of a path. -/
def pathClean (s : List Char) : List Char :=
  match s with
  | [] => ['.']
  | c :: _ =>
    let rooted : Bool := c = '/'
    let comps := ((splitSlash s).foldl (cleanStep rooted) []).reverse
    let body := List.intercalate ['/'] comps
    if rooted then '/' :: body
    else if body = [] then ['.'] else body

/-- Go `path.Join(a, b)`: empty elements are ignored, the rest is joined with `/`
and cleaned; the join of nothing but empty elements is the empty string. -/
def pathJoin (a b : String) : String :=
  if a = "" then (if b = "" then "" else String.mk (pathClean b.data))
  else String.mk (pathClean (a.data ++ '/' :: b.data))

/-- Go `string(b)` for a byte slice; each byte is kept as the character of that code. -/
def stringOfBytes (b : Bytes) : String :=
  String.mk (b.map Char.ofNat)

/-- Go `[]byte(s)` / `strings.NewReader(s)` for a string, the inverse of `stringOfBytes`. -/
def bytesOfString (s : String) : Bytes :=
  s.data.map Char.toNat

/-- Go `hex.EncodeToString` digit. -/
def hexDigit (n : Nat) : Char :=
  if n < 10 then Char.ofNat (48 + n) else Char.ofNat (87 + n)

/-- Go `plumbing.Hash.String()`: lower-case hex of the hash bytes. -/
def hexEncode (b : Bytes) : String :=
  String.mk (b.flatMap fun x => [hexDigit (x / 16 % 16), hexDigit (x % 16)])

/-- Go `error` values seen by the handler: the sentinel `core.ErrNotProvided`, and
errors made with `errors.New` / `fmt.Errorf` or handed over by a collaborator. -/
inductive GoError
  | ErrNotProvided
  | errorString (msg : String)
  deriving DecidableEq, Repr

instance instDecidableEqExcept {ε α : Type} [DecidableEq ε] [DecidableEq α] :
    DecidableEq (Except ε α)
  | .ok a, .ok b => if h : a = b then isTrue (by rw [h]) else isFalse (fun e => h (by cases e; rfl))
  | .error a, .error b =>
    if h : a = b then isTrue (by rw [h]) else isFalse (fun e => h (by cases e; rfl))
  | .ok _, .error _ => isFalse (fun e => by cases e)
  | .error _, .ok _ => isFalse (fun e => by cases e)

/-- Go `err.Error()`. The text of the sentinel is declared outside this file; no
statement below depends on it. -/
def GoError.Error : GoError → String
  | .ErrNotProvided => "block not provided"
  | .errorString msg => msg

/-- Go map lookup `m[k]` with the comma-ok form. -/
def mapGet (m : List (String × String)) (k : String) : Option String :=
  m.lookup k

/-- Go map assignment `m[k] = v`. -/
def mapSet : List (String × String) → String → String → List (String × String)
  | [], k, v => [(k, v)]
  | (k', v') :: rest, k, v =>
    if k' = k then (k, v) :: rest else (k', v') :: mapSet rest k v

/-! ## Constants and data types of `ipns.go` -/

def LARGE_OBJECT_DIR : String := "objects"

def LOBJ_TRACKER_PRIFIX : String := "//lobj"

/-- The constant `REFPATH_HEAD = iota`, third in its const block. -/
def REFPATH_HEAD : Int := 2

/-- The constant `REFPATH_REF`, fourth in its const block. -/
def REFPATH_REF : Int := 3

/-- Modelled from the spec: the storage shell's link type tag "directory"
(`ipfs.TDirectory`, declared by the shell library, not by this repository). -/
def TDirectory : Int := 1

/-- Modelled from the spec: the storage shell's link type tag "file"
(`ipfs.TFile`, declared by the shell library, not by this repository). -/
def TFile : Int := 2

structure refPath where
  path : String
  rType : Int
  hash : String
  deriving DecidableEq, Repr

/-- One entry of a shell listing (`ipfs.LsLink`). -/
structure LsLink where
  Name : String
  Hash : String
  Type_ : Int
  deriving DecidableEq, Repr

/-- The handler's own state. `largeObjs = none` is the nil map. The shell handle
`api` is passed to every operation instead of being stored. -/
structure IpnsHandler where
  remoteName : String
  currentHash : String
  largeObjs : Option (List (String × String))
  didPush : Bool
  deriving DecidableEq, Repr

/-! ## Collaborators -/

/-- Modelled from the spec: the storage shell collaborator (`list`, `fetch`, `add`,
`patchLink`, `encodeRawBlock`), as the handler calls it. `Cat` answers with a reader
or an error, and the reader yields its bytes or an error when drained. `PatchLink`
keeps both Go results. -/
structure Shell where
  Cat : String → Except String (Except String Bytes)
  Add : Bytes → Except String String
  PatchLink : String → String → String → Bool → String × Option String
  DagPut : Bytes → String → String → Except String String
  List : String → Except String (List LsLink)

/-- Modelled from the spec: the tracker collaborator (`set(key, value)`,
`listPrefixed(prefix) -> mapping key→value`); whether a call fails is decided by
the two functions below, the stored records are in `World.tracker`. -/
structure TrackerFaults where
  setErr : String → String → Option String
  listErr : String → Option String

/-- Modelled from the spec: the repository and the push negotiation collaborator.
`Reference` resolves a local reference to its head hash; `walk` gives the objects
(identifier, raw bytes) the graph walk of `PushHash` visits, in order, the
per-object callback being invoked once on each and any error aborting the walk;
`walkErr` is a failure of the walk itself; `CidFromHex` is `toIdentifier`. -/
structure Remote where
  Reference : String → Except String Bytes
  walk : String → List (String × Bytes)
  walkErr : String → Option String
  CidFromHex : String → Except String String

/-- The collaborators of one run. Go leaves the order in which `range` yields the
entries of a map unspecified: `rangeOrder` is the order of this run, some
rearrangement of the entries. -/
structure Env where
  api : Shell
  faults : TrackerFaults
  remote : Remote
  rangeOrder : List (String × String) → List (String × String)
  rangeOrder_perm : ∀ m, (rangeOrder m).Perm m

/-- Calls made on the collaborators, in order. -/
inductive Event
  | shellList (path : String)
  | shellCat (path : String)
  | shellAdd (data : Bytes)
  | shellPatchLink (root path child : String) (create : Bool)
  | shellDagPut (data : Bytes) (ienc kind : String)
  | trackerSet (key value : String)
  | trackerListPrefixed (pre : String)
  | loggerPrintf (line : String)
  deriving DecidableEq, Repr

/-- The state one operation runs in: the handler, the tracker records, the trace. -/
structure World where
  h : IpnsHandler
  tracker : List (String × String)
  trace : List Event
  deriving DecidableEq, Repr

def World.emit (w : World) (e : Event) : World :=
  { w with trace := w.trace ++ [e] }

def World.setRoot (w : World) (root : String) : World :=
  { w with h := { w.h with currentHash := root } }

/-- Modelled from the spec: the tracker call `set(key, value)`; on success the
record is stored under `key`. -/
def trackerSet (env : Env) (w : World) (key value : String) : Option GoError × World :=
  let w := w.emit (.trackerSet key value)
  match env.faults.setErr key value with
  | some e => (some (.errorString e), w)
  | none => (none, { w with tracker := mapSet w.tracker key value })

/-- Modelled from the spec: the tracker call `listPrefixed(prefix) -> mapping
key→value`; the mapping holds the stored records whose key starts with the
prefix, under their keys (`"//lobj/" + objectIdentifier` for the large objects). -/
def trackerListPrefixed (env : Env) (w : World) (pre : String) :
    Except GoError (List (String × String)) × World :=
  let w := w.emit (.trackerListPrefixed pre)
  match env.faults.listErr pre with
  | some e => (.error (.errorString e), w)
  | none => (.ok (w.tracker.filter fun kv => hasPrefix kv.1 pre), w)

/-- The statement `h.currentHash, err = h.api.PatchLink(h.currentHash, path, child, true)`:
the first result is stored whatever the second is. -/
def patchRoot (env : Env) (w : World) (path child : String) : Option GoError × World :=
  let r := env.api.PatchLink w.h.currentHash path child true
  let w := (w.emit (.shellPatchLink w.h.currentHash path child true)).setRoot r.1
  (r.2.map GoError.errorString, w)

/-! ## The handler -/

def loadObjectMap (env : Env) (w : World) : Option GoError × World :=
  let w := { w with h := { w.h with largeObjs := some [] } }
  let w := w.emit (.shellList (w.h.currentHash ++ "/" ++ LARGE_OBJECT_DIR))
  match env.api.List (w.h.currentHash ++ "/" ++ LARGE_OBJECT_DIR) with
  | .error e =>
    if hasPrefix e "ls: no link named \"objects\" under" then (none, w)
    else (some (.errorString e), w)
  | .ok links =>
    let m := links.foldl (fun m link => mapSet m link.Name link.Hash) []
    (none, { w with h := { w.h with largeObjs := some m } })

def ProvideBlock (env : Env) (w : World) (cid : String) : Except GoError Bytes × World :=
  match (if w.h.largeObjs = none then loadObjectMap env w else (none, w)) with
  | (some e, w) => (.error e, w)
  | (none, w) =>
    match mapGet (w.h.largeObjs.getD []) cid with
    | none => (.error .ErrNotProvided, w)
    | some mappedCid =>
      match trackerSet env w (LOBJ_TRACKER_PRIFIX ++ "/" ++ cid) mappedCid with
      | (some e, w) => (.error e, w)
      | (none, w) =>
        let w := w.emit (.shellCat ("/ipfs/" ++ mappedCid))
        match env.api.Cat ("/ipfs/" ++ mappedCid) with
        | .error _ => (.error (.errorString "cat error"), w)
        | .ok r =>
          match r with
          | .error e => (.error (.errorString e), w)
          | .ok data =>
            let w := w.emit (.shellDagPut data "raw" "git")
            match env.api.DagPut data "raw" "git" with
            | .error e => (.error (.errorString e), w)
            | .ok realCid =>
              if realCid ≠ cid then
                (.error (.errorString
                  ("unexpected cid for provided block " ++ realCid ++ " != " ++ cid)), w)
              else (.ok data, w)

/-- The per-object callback returned by `bigNodePatcher(tracker)`. -/
def bigNodePatcher (env : Env) (w : World) (hash : String) (data : Bytes) :
    Option GoError × World :=
  if data.length > 2 ^ 21 then
    let w := w.emit (.shellAdd data)
    match env.api.Add data with
    | .error e => (some (.errorString e), w)
    | .ok c =>
      match trackerSet env w (LOBJ_TRACKER_PRIFIX ++ "/" ++ hash) c with
      | (some e, w) => (some e, w)
      | (none, w) => patchRoot env w ("objects/" ++ hash) c
  else (none, w)

/-- The body of the loop `for k, v := range tracked` of `fillMissingLobjs`, run over
the entries in the order the map yields them. -/
def fillLoop (env : Env) : World → List (String × String) → Option GoError × World
  | w, [] => (none, w)
  | w, (k, v) :: rest =>
    if (mapGet (w.h.largeObjs.getD []) k).isSome then fillLoop env w rest
    else
      let k := trimPrefix k (LOBJ_TRACKER_PRIFIX ++ "/")
      let w := { w with h := { w.h with largeObjs := some (mapSet (w.h.largeObjs.getD []) k v) } }
      match patchRoot env w ("objects/" ++ k) v with
      | (some e, w) => (some e, w)
      | (none, w) => fillLoop env w rest

def fillMissingLobjs (env : Env) (w : World) : Option GoError × World :=
  match (if w.h.largeObjs = none then loadObjectMap env w else (none, w)) with
  | (some e, w) => (some e, w)
  | (none, w) =>
    match trackerListPrefixed env w LOBJ_TRACKER_PRIFIX with
    | (.error e, w) => (some e, w)
    | (.ok tracked, w) => fillLoop env w (env.rangeOrder tracked)

def Finish (env : Env) (w : World) : Option GoError × World :=
  if w.h.didPush then
    match fillMissingLobjs env w with
    | (some e, w) => (some e, w)
    | (none, w) =>
      (none, w.emit (.loggerPrintf
        ("Pushed to IPFS as \x1b[32mipns://" ++ w.h.currentHash ++ "\x1b[39m\n")))
  else (none, w)

def getRef (env : Env) (w : World) (name : String) : Except GoError String × World :=
  let w := w.emit (.shellCat (pathJoin w.h.remoteName name))
  match env.api.Cat (pathJoin w.h.remoteName name) with
  | .error e =>
    if contains e "cat: no link named" then (.ok "", w)
    else (.error (.errorString e), w)
  | .ok r =>
    match r with
    | .error e => (.error (.errorString e), w)
    | .ok buf => (.ok (stringOfBytes buf), w)

/-- Modelled from the spec: the graph walk of the push negotiation collaborator,
calling `NewNode` on every visited object and stopping at the first error. -/
def walkLoop (env : Env) : World → List (String × Bytes) → Option GoError × World
  | w, [] => (none, w)
  | w, (hash, data) :: rest =>
    match bigNodePatcher env w hash data with
    | (some e, w) => (some e, w)
    | (none, w) => walkLoop env w rest

/-- Modelled from the spec: `push.PushHash(headHash)` with `push.NewNode` set to
the handler's callback. -/
def PushHash (env : Env) (w : World) (headHash : String) : Option GoError × World :=
  match walkLoop env w (env.remote.walk headHash) with
  | (some e, w) => (some e, w)
  | (none, w) => ((env.remote.walkErr headHash).map GoError.errorString, w)

def Push (env : Env) (w : World) (localName remoteRef : String) :
    Except GoError String × World :=
  let w := { w with h := { w.h with didPush := true } }
  match env.remote.Reference localName with
  | .error e => (.error (.errorString ("command push: " ++ e)), w)
  | .ok hash =>
    let headHash := hexEncode hash
    match PushHash env w headHash with
    | (some e, w) => (.error (.errorString ("command push: " ++ e.Error)), w)
    | (none, w) =>
      let w := (trackerSet env w remoteRef (stringOfBytes hash)).2
      match env.remote.CidFromHex headHash with
      | .error e => (.error (.errorString ("push: " ++ e)), w)
      | .ok c =>
        match patchRoot env w remoteRef c with
        | (some e, w) => (.error (.errorString ("push: " ++ e.Error)), w)
        | (none, w) =>
          match getRef env w "HEAD" with
          | (.error e, w) => (.error (.errorString ("push: " ++ e.Error)), w)
          | (.ok head, w) =>
            if head = "" then
              let w := w.emit (.shellAdd (bytesOfString "refs/heads/master"))
              match env.api.Add (bytesOfString "refs/heads/master") with
              | .error e => (.error (.errorString ("push: " ++ e)), w)
              | .ok headRef =>
                match patchRoot env w "HEAD" headRef with
                | (some e, w) => (.error (.errorString ("push: " ++ e.Error)), w)
                | (none, w) => (.ok localName, w)
            else (.ok localName, w)

/-- The loop over `links` in `paths`; `recurse` is the recursive call `h.paths`.
`none` is the walk running out of fuel, never a result of the Go function. -/
def pathsLoop (recurse : String → Nat → Option (Except GoError (List refPath)))
    (p : String) (level : Nat) :
    List LsLink → List refPath → Option (Except GoError (List refPath))
  | [], out => some (.ok out)
  | link :: rest, out =>
    if link.Type_ = TDirectory then
      if level = 0 ∧ link.Name = LARGE_OBJECT_DIR then pathsLoop recurse p level rest out
      else
        match recurse (pathJoin p link.Name) (level + 1) with
        | none => none
        | some (.error e) => some (.error e)
        | some (.ok sub) => pathsLoop recurse p level rest (out ++ sub)
    else if link.Type_ = TFile then
      pathsLoop recurse p level rest (out ++ [⟨pathJoin p link.Name, REFPATH_REF, link.Hash⟩])
    else if link.Type_ = -1 then
      pathsLoop recurse p level rest (out ++ [⟨pathJoin p link.Name, REFPATH_HEAD, link.Hash⟩])
    else some (.error (.errorString ("unexpected link type " ++ toString link.Type_)))

/-- The walker `paths(api, p, level)`, with fuel bounding the depth of the recursion. -/
def paths (api : Shell) : Nat → String → Nat → Option (Except GoError (List refPath))
  | 0, _, _ => none
  | fuel + 1, p, level =>
    match api.List p with
    | .error e => some (.error (.errorString e))
    | .ok links => pathsLoop (paths api fuel) p level links []

/-- The test of the loop of `paths` that makes it pass over an entry without
recording or walking it: a directory named `objects`, met at level 0. -/
def skipped (level : Nat) (l : LsLink) : Prop :=
  l.Type_ = TDirectory ∧ level = 0 ∧ l.Name = LARGE_OBJECT_DIR

instance instDecidableSkipped (level : Nat) (l : LsLink) : Decidable (skipped level l) := by
  unfold skipped; infer_instance

/-! ## Sample collaborators

Identifiers are symbolic: patching `child` in at `path` under `root` yields the
identifier `root+path=child`, so that a root identifier spells out its history. -/

/-- A 20-byte head hash. -/
def demoHash : Bytes := List.replicate 20 171

/-- An object of 2 MiB + 1 byte. -/
def bigData : Bytes := List.replicate (2 ^ 21 + 1) 0

/-- A store that accepts every request. The tree `QmRoot` is empty (no `HEAD`, no
`objects`); a tree has a `HEAD` once one was patched in, the text leaf `QmHeadLeaf`
or else the commit; the tree `QmRoot+objects/abc=QmBig` lists the large object
`abc`, whose blob `QmBig` holds the bytes 1, 2, 3 of the object `abc`. -/
def okShell : Shell where
  Cat := fun p =>
    if p = "/ipfs/QmBig" then .ok (.ok [1, 2, 3])
    else if contains p "+HEAD=QmHeadLeaf" then .ok (.ok (bytesOfString "refs/heads/master"))
    else if contains p "+HEAD=" then .ok (.ok (bytesOfString "tree 4b825dc6"))
    else .error "cat: no link named \"HEAD\" under QmRoot"
  Add := fun data =>
    if data = bytesOfString "refs/heads/master" then .ok "QmHeadLeaf" else .ok "QmBig"
  PatchLink := fun root path child _ => (root ++ "+" ++ path ++ "=" ++ child, none)
  DagPut := fun data _ _ => if data = [1, 2, 3] then .ok "abc" else .ok "QmOther"
  List := fun p =>
    if p = "QmRoot+objects/abc=QmBig/objects" then .ok [⟨"abc", "QmBig", TFile⟩]
    else .error ("ls: no link named \"objects\" under " ++ p)

/-- A tracker that never fails. -/
def okFaults : TrackerFaults := ⟨fun _ _ => none, fun _ => none⟩

/-- A repository whose references resolve to `demoHash`; the walk visits one small
object. -/
def okRemote : Remote where
  Reference := fun _ => .ok demoHash
  walk := fun _ => [("def", [7, 7, 7])]
  walkErr := fun _ => none
  CidFromHex := fun _ => .ok "QmCommit"

/-- Maps are ranged over in the order of insertion in the sample runs. -/
def okEnv : Env := ⟨okShell, okFaults, okRemote, id, fun _ => List.Perm.refl _⟩

/-- A fresh session on the empty root `QmRoot`. -/
def freshWorld : World := ⟨⟨"QmRoot", "QmRoot", none, false⟩, [], []⟩

/-- A fresh session on the root that lists the large object `abc`. -/
def fetchWorld : World :=
  ⟨⟨"QmRoot+objects/abc=QmBig", "QmRoot+objects/abc=QmBig", none, false⟩, [], []⟩

/-- The store of `okShell` after the blob `QmBig` was altered: it now holds 6, 6, 6. -/
def corruptEnv : Env :=
  ⟨{ okShell with Cat := fun _ => .ok (.ok [6, 6, 6]) }, okFaults, okRemote, id,
    fun _ => List.Perm.refl _⟩

/-- A session that pushed the large object `abc`: the root has `objects/abc`, the
tracker has its record, the index is not loaded yet. -/
def repairWorld : World :=
  ⟨⟨"QmRoot", "QmRoot+objects/abc=QmBig", none, true⟩, [("//lobj/abc", "QmBig")], []⟩

/-- The store of `okShell`, except that every patch at `failPath` fails; a failing
`PatchLink` returns the empty string next to its error. -/
def failingPatchEnv (failPath : String) : Env :=
  ⟨{ okShell with PatchLink := fun root path child _ =>
      if path = failPath then ("", some "patch failed")
      else (root ++ "+" ++ path ++ "=" ++ child, none) },
    okFaults, okRemote, id, fun _ => List.Perm.refl _⟩

/-- The tracker refuses the record of the ref `refs/heads/main`; everything else works. -/
def failingTrackerEnv : Env :=
  ⟨okShell,
    ⟨fun key _ => if key = "refs/heads/main" then some "tracker: write failed" else none,
      fun _ => none⟩,
    okRemote, id, fun _ => List.Perm.refl _⟩

/-- Scenario B: uploads succeed, the patch of `objects/abc` into `QmRoot` fails
(returning the empty string next to its error), and the store lists no tree
under the empty root. -/
def brokenPatchShell : Shell where
  Cat := fun _ => .error "cat: no link named \"HEAD\" under QmRoot"
  Add := fun _ => .ok "QmBig"
  PatchLink := fun root path child _ =>
    if path = "objects/abc" ∧ root = "QmRoot" then ("", some "patch failed")
    else (root ++ "+" ++ path ++ "=" ++ child, none)
  DagPut := fun _ _ _ => .ok "abc"
  List := fun p =>
    if p = "QmRoot/objects" then .error "ls: no link named \"objects\" under QmRoot"
    else .error "invalid path"

/-- A repository whose walk visits the one object `abc` with the bytes `data`. -/
def bigRemote (data : Bytes) : Remote where
  Reference := fun _ => .ok demoHash
  walk := fun _ => [("abc", data)]
  walkErr := fun _ => none
  CidFromHex := fun _ => .ok "QmCommit"

def brokenPatchEnv (data : Bytes) : Env :=
  ⟨brokenPatchShell, okFaults, bigRemote data, id, fun _ => List.Perm.refl _⟩

/-- A tree for the walker: `objects` at the root and `refs/objects` one level down. -/
def treeShell : Shell where
  Cat := fun _ => .error "cat: not found"
  Add := fun _ => .error "read-only"
  PatchLink := fun _ _ _ _ => ("", some "read-only")
  DagPut := fun _ _ _ => .error "read-only"
  List := fun p =>
    if p = "QmRoot" then
      .ok [⟨"objects", "QmObjs", TDirectory⟩, ⟨"refs", "QmRefs", TDirectory⟩,
           ⟨"HEAD", "QmHead", TFile⟩]
    else if p = "QmRoot/objects" then .ok [⟨"abc", "QmBig", TFile⟩]
    else if p = "QmRoot/refs" then
      .ok [⟨"heads", "QmHeads", TDirectory⟩, ⟨"objects", "QmNested", TDirectory⟩]
    else if p = "QmRoot/refs/heads" then .ok [⟨"master", "QmCommit", -1⟩]
    else if p = "QmRoot/refs/objects" then
      .ok [⟨"note", "QmNote", TFile⟩, ⟨"tip", "QmTip", -1⟩]
    else .error "ls: not found"

/-- A root that lists a symbolic link (type tag 4 of the shell library) next to `HEAD`. -/
def symlinkShell : Shell :=
  { treeShell with List := fun p =>
      if p = "QmRoot" then Except.ok [⟨"HEAD", "QmHead", TFile⟩, ⟨"latest", "QmSym", 4⟩]
      else Except.error "ls: not found" }

/-- The directory reached from `p` (walked at `level`) by following the directory
entries named `names`, one level each, the way the walker goes down: an entry the
loop of `paths` passes over (`objects` at level 0) is not followed. The result is
the path of the directory and the level it is walked at. -/
def descend (api : Shell) : String → Nat → List String → Option (String × Nat)
  | p, level, [] => some (p, level)
  | p, level, name :: rest =>
    match api.List p with
    | .error _ => none
    | .ok links =>
      if links.any (fun l => decide (l.Name = name ∧ l.Type_ = TDirectory ∧ ¬ skipped level l))
      then descend api (pathJoin p name) (level + 1) rest
      else none

/-- A finite, well-formed tree below `p`, at most `depth` directories deep: every
listing the walk asks for succeeds, every entry is a directory, a file or of the
unknown type -1, and the same holds below every directory the walk goes into. -/
def wellFormed (api : Shell) : Nat → String → Nat → Bool
  | 0, _, _ => false
  | depth + 1, p, level =>
    match api.List p with
    | .error _ => false
    | .ok links =>
      links.all fun l =>
        if l.Type_ = TDirectory then
          decide (level = 0 ∧ l.Name = LARGE_OBJECT_DIR) ||
            wellFormed api depth (pathJoin p l.Name) (level + 1)
        else decide (l.Type_ = TFile ∨ l.Type_ = -1)

/-- A tree with `objects` at the root and a directory `objects` three levels down. -/
def nestedShell : Shell where
  Cat := fun _ => .error "cat: not found"
  Add := fun _ => .error "read-only"
  PatchLink := fun _ _ _ _ => ("", some "read-only")
  DagPut := fun _ _ _ => .error "read-only"
  List := fun p =>
    if p = "QmRoot" then
      .ok [⟨"objects", "QmObjs", TDirectory⟩, ⟨"refs", "QmRefs", TDirectory⟩,
           ⟨"HEAD", "QmHead", TFile⟩]
    else if p = "QmRoot/objects" then .ok [⟨"abc", "QmBig", TFile⟩]
    else if p = "QmRoot/refs" then .ok [⟨"heads", "QmHeads", TDirectory⟩]
    else if p = "QmRoot/refs/heads" then
      .ok [⟨"team", "QmTeam", TDirectory⟩, ⟨"master", "QmCommit", -1⟩]
    else if p = "QmRoot/refs/heads/team" then .ok [⟨"objects", "QmNested", TDirectory⟩]
    else if p = "QmRoot/refs/heads/team/objects" then
      .ok [⟨"note", "QmNote", TFile⟩, ⟨"tip", "QmTip", -1⟩]
    else .error "ls: not found"

/-! ## Library helpers: checks and lemmas -/

theorem pathJoin_examples :
    pathJoin "QmRoot" "HEAD" = "QmRoot/HEAD" ∧
    pathJoin "QmRoot/refs" "heads" = "QmRoot/refs/heads" ∧
    pathJoin "QmRoot/refs" "../x" = "QmRoot/x" ∧
    pathJoin "" "HEAD" = "HEAD" ∧ pathJoin "a" "" = "a" ∧ pathJoin "" "" = "" := by
  decide

theorem strings_examples :
    hasPrefix "ls: no link named \"objects\" under QmRoot"
      "ls: no link named \"objects\" under" = true ∧
    trimPrefix "//lobj/abc" "//lobj/" = "abc" ∧
    trimPrefix "refs/heads/main" "//lobj/" = "refs/heads/main" ∧
    contains "merkledag: cat: no link named \"HEAD\"" "cat: no link named" = true ∧
    contains "context deadline exceeded" "cat: no link named" = false ∧
    hexEncode [1, 171] = "01ab" := by
  decide

theorem mapGet_nil (k : String) : mapGet [] k = none := rfl

theorem mapGet_cons (k' v' : String) (m : List (String × String)) (k : String) :
    mapGet ((k', v') :: m) k = if k = k' then some v' else mapGet m k := by
  unfold mapGet
  rw [List.lookup_cons]
  by_cases h : k = k'
  · simp [h]
  · have : (k == k') = false := by simpa using h
    simp [this, h]

theorem mapGet_mapSet_self (m : List (String × String)) (k v : String) :
    mapGet (mapSet m k v) k = some v := by
  induction m with
  | nil => simp [mapSet, mapGet_cons]
  | cons e rest ih =>
    obtain ⟨k', v'⟩ := e
    unfold mapSet
    by_cases h : k' = k
    · simp [h, mapGet_cons]
    · have h' : ¬ k = k' := fun e => h e.symm
      simp [h, mapGet_cons, h', ih]

theorem mapGet_mapSet_ne (m : List (String × String)) (k v k0 : String) (hne : k ≠ k0) :
    mapGet (mapSet m k v) k0 = mapGet m k0 := by
  induction m with
  | nil =>
    have h' : ¬ k0 = k := fun e => hne e.symm
    simp [mapSet, mapGet_cons, h', mapGet_nil]
  | cons e rest ih =>
    obtain ⟨k', v'⟩ := e
    unfold mapSet
    by_cases h : k' = k
    · have h' : ¬ k0 = k := fun e => hne e.symm
      subst h
      simp [mapGet_cons, h']
    · simp [h, mapGet_cons, ih]

theorem mapGet_foldl_absent (cid : String) (ls : List LsLink) :
    ∀ (m0 : List (String × String)), (∀ l ∈ ls, l.Name ≠ cid) → mapGet m0 cid = none →
      mapGet (ls.foldl (fun m link => mapSet m link.Name link.Hash) m0) cid = none := by
  induction ls with
  | nil => intro m0 _ h; simpa using h
  | cons l rest ih =>
    intro m0 hn h
    rw [List.foldl_cons]
    apply ih
    · intro l' hl'
      exact hn l' (List.mem_cons_of_mem _ hl')
    · rw [mapGet_mapSet_ne _ _ _ _ (hn l (List.mem_cons_self _ _))]
      exact h

theorem pathsLoop_skip_filter (recurse : String → Nat → Option (Except GoError (List refPath)))
    (p : String) (links : List LsLink) :
    ∀ out, pathsLoop recurse p 0 links out =
      pathsLoop recurse p 0 (links.filter fun l => decide (¬ skipped 0 l)) out := by
  induction links with
  | nil => intro out; rfl
  | cons l rest ih =>
    intro out
    by_cases hs : skipped 0 l
    · have hf : (l :: rest).filter (fun l => decide (¬ skipped 0 l)) =
          rest.filter (fun l => decide (¬ skipped 0 l)) := by
        simp [List.filter_cons, hs]
      rw [hf, ← ih out]
      obtain ⟨h1, _, h3⟩ := hs
      simp [pathsLoop, h1, h3]
    · have hf : (l :: rest).filter (fun l => decide (¬ skipped 0 l)) =
          l :: rest.filter (fun l => decide (¬ skipped 0 l)) := by
        simp [List.filter_cons, hs]
      rw [hf]
      unfold pathsLoop
      split
      · split
        · rename_i h1 h2
          exact absurd ⟨h1, h2.1, h2.2⟩ hs
        · split
          · rfl
          · rfl
          · exact ih _
      · split
        · exact ih _
        · split
          · exact ih _
          · rfl

/-- What a successful run of the loop of `paths` returns: the records it started
with, and for every listed entry either its record (a leaf) or the records of the
recursive walk (a directory that is not skipped); and every record comes from there. -/
theorem pathsLoop_ok (recurse : String → Nat → Option (Except GoError (List refPath)))
    (p : String) (level : Nat) (links : List LsLink) :
    ∀ out res, pathsLoop recurse p level links out = some (.ok res) →
      (∀ r ∈ out, r ∈ res) ∧
      (∀ l ∈ links,
        (l.Type_ = TDirectory ∨ l.Type_ = TFile ∨ l.Type_ = -1) ∧
        (l.Type_ = TFile → (⟨pathJoin p l.Name, REFPATH_REF, l.Hash⟩ : refPath) ∈ res) ∧
        (l.Type_ = -1 → (⟨pathJoin p l.Name, REFPATH_HEAD, l.Hash⟩ : refPath) ∈ res) ∧
        (l.Type_ = TDirectory → ¬ (level = 0 ∧ l.Name = LARGE_OBJECT_DIR) →
          ∃ sub, recurse (pathJoin p l.Name) (level + 1) = some (.ok sub) ∧
            ∀ r ∈ sub, r ∈ res)) ∧
      (∀ r ∈ res, r ∈ out ∨ ∃ l ∈ links, ¬ skipped level l ∧
        ((l.Type_ = TFile ∧ r = ⟨pathJoin p l.Name, REFPATH_REF, l.Hash⟩) ∨
         (l.Type_ = -1 ∧ r = ⟨pathJoin p l.Name, REFPATH_HEAD, l.Hash⟩) ∨
         (l.Type_ = TDirectory ∧ ∃ sub,
            recurse (pathJoin p l.Name) (level + 1) = some (.ok sub) ∧ r ∈ sub))) := by
  induction links with
  | nil =>
    intro out res h
    simp only [pathsLoop, Option.some.injEq, Except.ok.injEq] at h
    subst h
    exact ⟨fun r hr => hr, fun l hl => absurd hl (List.not_mem_nil _), fun r hr => Or.inl hr⟩
  | cons l rest ih =>
    intro out res h
    have hdf : TDirectory ≠ TFile := by decide
    have hdu : TDirectory ≠ (-1 : Int) := by decide
    have hfu : TFile ≠ (-1 : Int) := by decide
    unfold pathsLoop at h
    by_cases hd : l.Type_ = TDirectory
    · rw [if_pos hd] at h
      by_cases hs : level = 0 ∧ l.Name = LARGE_OBJECT_DIR
      · rw [if_pos hs] at h
        obtain ⟨h1, h2, h3⟩ := ih out res h
        refine ⟨h1, ?_, ?_⟩
        · intro l' hl'
          rcases List.mem_cons.mp hl' with rfl | hl'
          · refine ⟨Or.inl hd, ?_, ?_, ?_⟩
            · intro hf; exact absurd (hd.symm.trans hf) hdf
            · intro hu; exact absurd (hd.symm.trans hu) hdu
            · intro _ hns; exact absurd hs hns
          · exact h2 l' hl'
        · intro r hr
          rcases h3 r hr with ho | ⟨l', hl', hrest⟩
          · exact Or.inl ho
          · exact Or.inr ⟨l', List.mem_cons_of_mem _ hl', hrest⟩
      · rw [if_neg hs] at h
        cases hrec : recurse (pathJoin p l.Name) (level + 1) with
        | none => rw [hrec] at h; simp at h
        | some x =>
          cases x with
          | error e => rw [hrec] at h; simp at h
          | ok sub =>
            rw [hrec] at h
            obtain ⟨h1, h2, h3⟩ := ih (out ++ sub) res h
            refine ⟨fun r hr => h1 r (List.mem_append_left _ hr), ?_, ?_⟩
            · intro l' hl'
              rcases List.mem_cons.mp hl' with rfl | hl'
              · refine ⟨Or.inl hd, ?_, ?_, ?_⟩
                · intro hf; exact absurd (hd.symm.trans hf) hdf
                · intro hu; exact absurd (hd.symm.trans hu) hdu
                · intro _ _
                  exact ⟨sub, hrec, fun r hr => h1 r (List.mem_append_right _ hr)⟩
              · exact h2 l' hl'
            · intro r hr
              rcases h3 r hr with ho | ⟨l', hl', hrest⟩
              · rcases List.mem_append.mp ho with ho | ho
                · exact Or.inl ho
                · exact Or.inr ⟨l, List.mem_cons_self _ _, fun hk => hs ⟨hk.2.1, hk.2.2⟩,
                    Or.inr (Or.inr ⟨hd, sub, hrec, ho⟩)⟩
              · exact Or.inr ⟨l', List.mem_cons_of_mem _ hl', hrest⟩
    · rw [if_neg hd] at h
      by_cases hf : l.Type_ = TFile
      · rw [if_pos hf] at h
        obtain ⟨h1, h2, h3⟩ := ih _ res h
        refine ⟨fun r hr => h1 r (List.mem_append_left _ hr), ?_, ?_⟩
        · intro l' hl'
          rcases List.mem_cons.mp hl' with rfl | hl'
          · refine ⟨Or.inr (Or.inl hf), ?_, ?_, ?_⟩
            · intro _; exact h1 _ (List.mem_append_right _ (List.mem_singleton_self _))
            · intro hu; exact absurd (hf.symm.trans hu) hfu
            · intro hd'; exact absurd hd' hd
          · exact h2 l' hl'
        · intro r hr
          rcases h3 r hr with ho | ⟨l', hl', hrest⟩
          · rcases List.mem_append.mp ho with ho | ho
            · exact Or.inl ho
            · exact Or.inr ⟨l, List.mem_cons_self _ _, fun hk => hd hk.1,
                Or.inl ⟨hf, List.mem_singleton.mp ho⟩⟩
          · exact Or.inr ⟨l', List.mem_cons_of_mem _ hl', hrest⟩
      · rw [if_neg hf] at h
        by_cases hu : l.Type_ = -1
        · rw [if_pos hu] at h
          obtain ⟨h1, h2, h3⟩ := ih _ res h
          refine ⟨fun r hr => h1 r (List.mem_append_left _ hr), ?_, ?_⟩
          · intro l' hl'
            rcases List.mem_cons.mp hl' with rfl | hl'
            · refine ⟨Or.inr (Or.inr hu), ?_, ?_, ?_⟩
              · intro hf'; exact absurd hf' hf
              · intro _; exact h1 _ (List.mem_append_right _ (List.mem_singleton_self _))
              · intro hd'; exact absurd hd' hd
            · exact h2 l' hl'
          · intro r hr
            rcases h3 r hr with ho | ⟨l', hl', hrest⟩
            · rcases List.mem_append.mp ho with ho | ho
              · exact Or.inl ho
              · exact Or.inr ⟨l, List.mem_cons_self _ _, fun hk => hd hk.1,
                  Or.inr (Or.inl ⟨hu, List.mem_singleton.mp ho⟩)⟩
            · exact Or.inr ⟨l', List.mem_cons_of_mem _ hl', hrest⟩
        · rw [if_neg hu] at h
          simp at h

theorem pathsLoop_mono (r1 r2 : String → Nat → Option (Except GoError (List refPath)))
    (hext : ∀ q l x, r1 q l = some x → r2 q l = some x) (p : String) (level : Nat)
    (links : List LsLink) :
    ∀ out x, pathsLoop r1 p level links out = some x →
      pathsLoop r2 p level links out = some x := by
  induction links with
  | nil => intro out x h; simpa [pathsLoop] using h
  | cons l rest ih =>
    intro out x h
    unfold pathsLoop at h ⊢
    by_cases hd : l.Type_ = TDirectory
    · rw [if_pos hd] at h ⊢
      by_cases hs : level = 0 ∧ l.Name = LARGE_OBJECT_DIR
      · rw [if_pos hs] at h ⊢
        exact ih _ _ h
      · rw [if_neg hs] at h ⊢
        cases hrec : r1 (pathJoin p l.Name) (level + 1) with
        | none => rw [hrec] at h; simp at h
        | some y =>
          rw [hrec] at h
          rw [hext _ _ _ hrec]
          cases y with
          | error e => exact h
          | ok sub => exact ih _ _ h
    · rw [if_neg hd] at h ⊢
      by_cases hf : l.Type_ = TFile
      · rw [if_pos hf] at h ⊢
        exact ih _ _ h
      · rw [if_neg hf] at h ⊢
        by_cases hu : l.Type_ = -1
        · rw [if_pos hu] at h ⊢
          exact ih _ _ h
        · rw [if_neg hu] at h ⊢
          exact h

/-- More fuel never changes a result of the walker. -/
theorem paths_fuel_mono (api : Shell) (fuel : Nat) :
    ∀ p level x, paths api fuel p level = some x → paths api (fuel + 1) p level = some x := by
  induction fuel with
  | zero => intro p level x h; simp [paths] at h
  | succ n ih =>
    intro p level x h
    unfold paths at h ⊢
    cases hl : api.List p with
    | error e => rw [hl] at h; exact h
    | ok links =>
      rw [hl] at h
      exact pathsLoop_mono _ _ ih _ _ _ _ _ h

theorem paths_ok_unfold (api : Shell) (fuel : Nat) (p : String) (level : Nat)
    (out : List refPath) (h : paths api fuel p level = some (.ok out)) :
    ∃ f links, fuel = f + 1 ∧ api.List p = .ok links ∧
      pathsLoop (paths api f) p level links [] = some (.ok out) := by
  cases fuel with
  | zero => simp [paths] at h
  | succ f =>
    unfold paths at h
    cases hl : api.List p with
    | error e => rw [hl] at h; simp at h
    | ok links =>
      rw [hl] at h
      exact ⟨f, links, rfl, rfl, h⟩

/-- The records of the walk of a directory reached by `descend` are records of the
walk it was reached from. -/
theorem paths_descend (api : Shell) (names : List String) :
    ∀ (fuel : Nat) (p : String) (level : Nat) (out : List refPath) (q : String) (lvl : Nat),
      paths api fuel p level = some (.ok out) →
      descend api p level names = some (q, lvl) →
      ∃ f sub, paths api f q lvl = some (.ok sub) ∧ ∀ r ∈ sub, r ∈ out := by
  induction names with
  | nil =>
    intro fuel p level out q lvl h hd
    simp only [descend, Option.some.injEq, Prod.mk.injEq] at hd
    obtain ⟨rfl, rfl⟩ := hd
    exact ⟨fuel, out, h, fun r hr => hr⟩
  | cons name rest ih =>
    intro fuel p level out q lvl h hd
    obtain ⟨f, links, _, hl, hloop⟩ := paths_ok_unfold api fuel p level out h
    simp only [descend, hl] at hd
    split at hd
    · rename_i hany
      obtain ⟨l, hlm, hprop⟩ := List.any_eq_true.mp hany
      simp only [decide_eq_true_eq] at hprop
      obtain ⟨hname, hdir, hns⟩ := hprop
      obtain ⟨_, h2, _⟩ := pathsLoop_ok _ _ _ _ _ _ hloop
      obtain ⟨sub1, hsub1, hin1⟩ := (h2 l hlm).2.2.2 hdir (fun hk => hns ⟨hdir, hk.1, hk.2⟩)
      rw [hname] at hsub1
      obtain ⟨f2, sub, hsub, hin⟩ := ih f _ _ sub1 q lvl hsub1 hd
      exact ⟨f2, sub, hsub, fun r hr => hin1 r (hin r hr)⟩
    · simp at hd

/-- Each name followed by `descend` goes one level down. -/
theorem descend_level (api : Shell) (names : List String) :
    ∀ (p : String) (level : Nat) (q : String) (lvl : Nat),
      descend api p level names = some (q, lvl) → lvl = level + names.length := by
  induction names with
  | nil =>
    intro p level q lvl hd
    simp only [descend, Option.some.injEq, Prod.mk.injEq] at hd
    simp [hd.2]
  | cons name rest ih =>
    intro p level q lvl hd
    unfold descend at hd
    split at hd
    · simp at hd
    · split at hd
      · have := ih _ _ _ _ hd
        simp [this]; omega
      · simp at hd

/-- The loop returns records when every directory it goes into does and every other
entry is a file or of type -1. -/
theorem pathsLoop_total (recurse : String → Nat → Option (Except GoError (List refPath)))
    (p : String) (level : Nat) (links : List LsLink)
    (hall : ∀ l ∈ links,
      if l.Type_ = TDirectory then
        (level = 0 ∧ l.Name = LARGE_OBJECT_DIR) ∨
          ∃ sub, recurse (pathJoin p l.Name) (level + 1) = some (.ok sub)
      else l.Type_ = TFile ∨ l.Type_ = -1) :
    ∀ out, ∃ res, pathsLoop recurse p level links out = some (.ok res) := by
  induction links with
  | nil => intro out; exact ⟨out, rfl⟩
  | cons l rest ih =>
    intro out
    have hrest := ih (fun l' hl' => hall l' (List.mem_cons_of_mem _ hl'))
    have hl := hall l (List.mem_cons_self _ _)
    rw [pathsLoop]
    by_cases hd : l.Type_ = TDirectory
    · rw [if_pos hd] at hl ⊢
      by_cases hs : level = 0 ∧ l.Name = LARGE_OBJECT_DIR
      · rw [if_pos hs]
        exact hrest _
      · rw [if_neg hs]
        rcases hl with hk | ⟨sub, hsub⟩
        · exact absurd hk hs
        · rw [hsub]
          exact hrest _
    · rw [if_neg hd] at hl ⊢
      by_cases hf : l.Type_ = TFile
      · rw [if_pos hf]
        exact hrest _
      · rw [if_neg hf]
        rcases hl with hk | hu
        · exact absurd hk hf
        · rw [if_pos hu]
          exact hrest _

/-- On a finite well-formed tree the walk returns records, with fuel for its depth. -/
theorem paths_wellFormed (api : Shell) (n : Nat) :
    ∀ (p : String) (level : Nat), wellFormed api n p level = true →
      ∃ out, paths api n p level = some (.ok out) := by
  induction n with
  | zero => intro p level h; simp [wellFormed] at h
  | succ n ih =>
    intro p level h
    unfold wellFormed at h
    unfold paths
    cases hl : api.List p with
    | error e => rw [hl] at h; simp at h
    | ok links =>
      rw [hl] at h
      simp only
      have hall := List.all_eq_true.mp h
      apply pathsLoop_total
      intro l hlm
      have hx := hall l hlm
      by_cases hd : l.Type_ = TDirectory
      · rw [if_pos hd] at hx ⊢
        simp only [Bool.or_eq_true, decide_eq_true_eq] at hx
        rcases hx with hk | hw
        · exact Or.inl hk
        · exact Or.inr (ih _ _ hw)
      · rw [if_neg hd] at hx ⊢
        simpa using hx

/-- A result of the walker stays the same with any amount of fuel added. -/
theorem paths_fuel_add (api : Shell) (n : Nat) (p : String) (level : Nat)
    (x : Except GoError (List refPath)) (h : paths api n p level = some x) :
    ∀ k, paths api (n + k) p level = some x := by
  intro k
  induction k with
  | zero => exact h
  | succ k ih => exact paths_fuel_mono api (n + k) p level x ih

/-! ## Helper lemmas on the handler -/

/-- A map of one entry is ranged over in one way. -/
theorem rangeOrder_singleton (env : Env) (e : String × String) :
    env.rangeOrder [e] = [e] :=
  List.perm_singleton.mp (env.rangeOrder_perm [e])

theorem bigData_length : bigData.length = 2 ^ 21 + 1 :=
  List.length_replicate _ _

/-- Above the threshold the callback runs its three steps in order. -/
theorem bigNodePatcher_large (env : Env) (w : World) (hash : String) (data : Bytes)
    (h : 2 ^ 21 < data.length) :
    bigNodePatcher env w hash data =
      (match env.api.Add data with
       | .error e => (some (.errorString e), w.emit (.shellAdd data))
       | .ok c =>
         match trackerSet env (w.emit (.shellAdd data)) (LOBJ_TRACKER_PRIFIX ++ "/" ++ hash) c with
         | (some e, w) => (some e, w)
         | (none, w) => patchRoot env w ("objects/" ++ hash) c) := by
  unfold bigNodePatcher
  rw [if_pos h]

/-- The root identifier after a patch is the first result of `PatchLink`, whether
or not the call failed. -/
theorem patchRoot_currentHash (env : Env) (w : World) (path child : String) :
    (patchRoot env w path child).2.h.currentHash =
      (env.api.PatchLink w.h.currentHash path child true).1 := rfl

/-- The callback returns the error of a failing tracker write; its last call is that
write. -/
theorem bigNodePatcher_tracker_failure (env : Env) (w : World) (hash : String) (data : Bytes)
    (c e : String) (h : 2 ^ 21 < data.length) (hadd : env.api.Add data = .ok c)
    (hset : env.faults.setErr (LOBJ_TRACKER_PRIFIX ++ "/" ++ hash) c = some e) :
    bigNodePatcher env w hash data =
      (some (.errorString e),
        (w.emit (.shellAdd data)).emit (.trackerSet (LOBJ_TRACKER_PRIFIX ++ "/" ++ hash) c)) := by
  rw [bigNodePatcher_large _ _ _ _ h]
  simp [hadd, trackerSet, hset]

/-- A loaded index that has the identifier: `ProvideBlock` returns the error of a
failing tracker write; its last call is that write. -/
theorem ProvideBlock_tracker_failure (env : Env) (w : World) (cid mappedCid e : String)
    (m : List (String × String)) (hm : w.h.largeObjs = some m)
    (hget : mapGet m cid = some mappedCid)
    (hset : env.faults.setErr (LOBJ_TRACKER_PRIFIX ++ "/" ++ cid) mappedCid = some e) :
    ProvideBlock env w cid =
      (.error (.errorString e),
        w.emit (.trackerSet (LOBJ_TRACKER_PRIFIX ++ "/" ++ cid) mappedCid)) := by
  simp [ProvideBlock, hm, hget, trackerSet, hset]

/-- A failing walk makes `Push` return its error, in the state the walk left. -/
theorem Push_walk_error (env : Env) (w w' : World) (localName remoteRef : String)
    (hash : Bytes) (e : GoError)
    (href : env.remote.Reference localName = .ok hash)
    (hwalk : PushHash env { w with h := { w.h with didPush := true } } (hexEncode hash) =
      (some e, w')) :
    Push env w localName remoteRef =
      (.error (.errorString ("command push: " ++ e.Error)), w') := by
  unfold Push
  simp only [href, hwalk]

/-! ## The claims -/

/-- C1 (fails on the code): `Finish` after a push is to patch `objects/<id>` only for
tracker entries whose object identifier is not in the index. Here the index, loaded
from the root, already maps `abc` to `QmBig`, and the tracker holds `//lobj/abc`;
`fillMissingLobjs` looks the entry up under its full tracker key `//lobj/abc`,
finds nothing, and patches `objects/abc` once more. -/
theorem Finish_patches_indexed_entry :
    (loadObjectMap okEnv repairWorld).2.h.largeObjs = some [("abc", "QmBig")] ∧
    Finish okEnv repairWorld =
      (none,
        ⟨⟨"QmRoot", "QmRoot+objects/abc=QmBig+objects/abc=QmBig",
            some [("abc", "QmBig")], true⟩,
          [("//lobj/abc", "QmBig")],
          [.shellList "QmRoot+objects/abc=QmBig/objects",
           .trackerListPrefixed "//lobj",
           .shellPatchLink "QmRoot+objects/abc=QmBig" "objects/abc" "QmBig" true,
           .loggerPrintf ("Pushed to IPFS as \x1b[32mipns://" ++
             "QmRoot+objects/abc=QmBig+objects/abc=QmBig" ++ "\x1b[39m\n")]⟩) := by
  decide

/-- C2 (fails on the code): Scenario B. A push visits the object `abc` of more than
2 MiB; the upload and the tracker write succeed and the patch of `objects/abc`
into `QmRoot` fails. `Push` returns an error and the tracker holds `//lobj/abc`,
but the root identifier is now the string the failing patch returned (empty), not
`QmRoot`; the following `Finish` lists `/objects`, fails there, and issues no
patch of `objects/abc` at all. -/
theorem Finish_after_failed_object_patch (data : Bytes) (h : 2 ^ 21 < data.length) :
    Push (brokenPatchEnv data) freshWorld "refs/heads/main" "refs/heads/main" =
      (.error (.errorString "command push: patch failed"),
        ⟨⟨"QmRoot", "", none, true⟩, [("//lobj/abc", "QmBig")],
          [.shellAdd data, .trackerSet "//lobj/abc" "QmBig",
           .shellPatchLink "QmRoot" "objects/abc" "QmBig" true]⟩) ∧
    Finish (brokenPatchEnv data)
        (Push (brokenPatchEnv data) freshWorld "refs/heads/main" "refs/heads/main").2 =
      (some (.errorString "invalid path"),
        ⟨⟨"QmRoot", "", some [], true⟩, [("//lobj/abc", "QmBig")],
          [.shellAdd data, .trackerSet "//lobj/abc" "QmBig",
           .shellPatchLink "QmRoot" "objects/abc" "QmBig" true,
           .shellList "/objects"]⟩) := by
  have h1 : PushHash (brokenPatchEnv data) ⟨⟨"QmRoot", "QmRoot", none, true⟩, [], []⟩
      (hexEncode demoHash) =
      (some (.errorString "patch failed"),
        ⟨⟨"QmRoot", "", none, true⟩, [("//lobj/abc", "QmBig")],
          [.shellAdd data, .trackerSet "//lobj/abc" "QmBig",
           .shellPatchLink "QmRoot" "objects/abc" "QmBig" true]⟩) := by
    unfold PushHash
    have hw : (brokenPatchEnv data).remote.walk (hexEncode demoHash) = [("abc", data)] := rfl
    rw [hw]
    unfold walkLoop
    rw [bigNodePatcher_large _ _ _ _ h]
    rfl
  have hpush := Push_walk_error (brokenPatchEnv data) freshWorld _ "refs/heads/main"
    "refs/heads/main" demoHash _ rfl h1
  refine ⟨hpush, ?_⟩
  rw [hpush]
  rfl

theorem Finish_after_failed_object_patch_witness :
    2 ^ 21 < bigData.length ∧
    (Push (brokenPatchEnv bigData) freshWorld "refs/heads/main"
      "refs/heads/main").2.h.currentHash = "" ∧
    (Finish (brokenPatchEnv bigData)
      (Push (brokenPatchEnv bigData) freshWorld "refs/heads/main" "refs/heads/main").2).1 =
      some (.errorString "invalid path") :=
  ⟨by rw [bigData_length]; omega,
   by rw [(Finish_after_failed_object_patch bigData (by rw [bigData_length]; omega)).1],
   by rw [(Finish_after_failed_object_patch bigData (by rw [bigData_length]; omega)).2]⟩

/-- C3: whenever `ProvideBlock` returns bytes without error, the identifier the store
derives from these bytes as a raw git block (`DagPut(data, "raw", "git")`) is the
requested one; and when the run reaches the comparison with a derived identifier
that differs from the requested one, `ProvideBlock` returns the error
"unexpected cid for provided block" and no bytes. -/
theorem ProvideBlock_integrity (env : Env) (w : World) (cid : String) :
    (∀ (data : Bytes) (w' : World), ProvideBlock env w cid = (.ok data, w') →
      env.api.DagPut data "raw" "git" = .ok cid) ∧
    (∀ (w1 : World) (mappedCid : String) (data : Bytes) (realCid : String),
      (if w.h.largeObjs = none then loadObjectMap env w else (none, w)) = (none, w1) →
      mapGet (w1.h.largeObjs.getD []) cid = some mappedCid →
      env.faults.setErr (LOBJ_TRACKER_PRIFIX ++ "/" ++ cid) mappedCid = none →
      env.api.Cat ("/ipfs/" ++ mappedCid) = .ok (.ok data) →
      env.api.DagPut data "raw" "git" = .ok realCid →
      realCid ≠ cid →
      (ProvideBlock env w cid).1 = .error (.errorString
        ("unexpected cid for provided block " ++ realCid ++ " != " ++ cid))) := by
  constructor
  · intro data w' h
    unfold ProvideBlock at h
    repeat (any_goals (first | (split at h) | (dsimp only at h)))
    all_goals (try (simp at h; done))
    rename_i hreal hne
    simp only [ne_eq, Decidable.not_not] at hne
    simp only [Prod.mk.injEq, Except.ok.injEq] at h
    rw [← h.1, ← hne]
    exact hreal
  · intro w1 mappedCid data realCid hload hget hset hcat hdag hne
    unfold ProvideBlock
    rw [hload]
    simp only [hget, trackerSet, hset, hcat, World.emit, hdag, hne, ne_eq, not_false_eq_true,
      if_true]

theorem ProvideBlock_integrity_witness :
    ProvideBlock okEnv fetchWorld "abc" =
      (.ok [1, 2, 3],
        ⟨⟨"QmRoot+objects/abc=QmBig", "QmRoot+objects/abc=QmBig", some [("abc", "QmBig")],
            false⟩,
          [("//lobj/abc", "QmBig")],
          [.shellList "QmRoot+objects/abc=QmBig/objects", .trackerSet "//lobj/abc" "QmBig",
           .shellCat "/ipfs/QmBig", .shellDagPut [1, 2, 3] "raw" "git"]⟩) ∧
    okEnv.api.DagPut [1, 2, 3] "raw" "git" = .ok "abc" ∧
    (ProvideBlock corruptEnv fetchWorld "abc").1 = .error (.errorString
      ("unexpected cid for provided block " ++ "QmOther" ++ " != " ++ "abc")) :=
  have hrun : ProvideBlock okEnv fetchWorld "abc" =
      (.ok [1, 2, 3],
        ⟨⟨"QmRoot+objects/abc=QmBig", "QmRoot+objects/abc=QmBig", some [("abc", "QmBig")],
            false⟩,
          [("//lobj/abc", "QmBig")],
          [.shellList "QmRoot+objects/abc=QmBig/objects", .trackerSet "//lobj/abc" "QmBig",
           .shellCat "/ipfs/QmBig", .shellDagPut [1, 2, 3] "raw" "git"]⟩) := by decide
  ⟨hrun,
   (ProvideBlock_integrity okEnv fetchWorld "abc").1 [1, 2, 3] _ hrun,
   (ProvideBlock_integrity corruptEnv fetchWorld "abc").2
     ⟨⟨"QmRoot+objects/abc=QmBig", "QmRoot+objects/abc=QmBig", some [("abc", "QmBig")], false⟩,
       [], [.shellList "QmRoot+objects/abc=QmBig/objects"]⟩
     "QmBig" [6, 6, 6] "QmOther" (by decide) (by decide) (by decide) (by decide) (by decide)
     (by decide)⟩

/-- C4: reserved-name exclusion in the walker, for the walk of a root `p` at level 0
(the handler's walk) over any store. (1) The output is that of the root listing with
the directories named `objects` removed, and every record of the output comes from
a root entry that is not a directory named `objects` (the entry's own record, or a
record of the walk of that directory). (2) Whenever the walk returns records: for
every directory `q` it goes down to, at a level of 1 or more, that lists a
directory named `objects`, the listing of `q/objects` succeeds and each of its
file leaves has its Symbolic Ref record and each of its leaves of type -1 its Head
Ref record, under the joined path, in the output of the root walk. (3) More
generally the walk of every directory the root walk goes down to returns, and all
of its records are in the output of the root walk. (4) On a finite well-formed
tree the root walk returns records, with fuel for the depth of the tree or more. -/
theorem paths_objects_exclusion (api : Shell) (fuel : Nat) (p : String) (links : List LsLink)
    (hl : api.List p = .ok links) :
    (paths api (fuel + 1) p 0 =
        pathsLoop (paths api fuel) p 0 (links.filter fun l => decide (¬ skipped 0 l)) [] ∧
      ∀ out, paths api (fuel + 1) p 0 = some (.ok out) → ∀ r ∈ out,
        ∃ l ∈ links, ¬ (l.Type_ = TDirectory ∧ l.Name = LARGE_OBJECT_DIR) ∧
          ((l.Type_ = TFile ∧ r = ⟨pathJoin p l.Name, REFPATH_REF, l.Hash⟩) ∨
           (l.Type_ = -1 ∧ r = ⟨pathJoin p l.Name, REFPATH_HEAD, l.Hash⟩) ∨
           (l.Type_ = TDirectory ∧ ∃ sub,
              paths api fuel (pathJoin p l.Name) 1 = some (.ok sub) ∧ r ∈ sub))) ∧
    (∀ out, paths api (fuel + 1) p 0 = some (.ok out) →
      ∀ names q lvl, descend api p 0 names = some (q, lvl) → 1 ≤ lvl →
      ∀ qlinks, api.List q = .ok qlinks →
      ∀ d ∈ qlinks, d.Type_ = TDirectory → d.Name = LARGE_OBJECT_DIR →
        ∃ olinks, api.List (pathJoin q LARGE_OBJECT_DIR) = .ok olinks ∧
          ∀ f ∈ olinks,
            (f.Type_ = TFile →
              (⟨pathJoin (pathJoin q LARGE_OBJECT_DIR) f.Name, REFPATH_REF, f.Hash⟩ : refPath)
                ∈ out) ∧
            (f.Type_ = -1 →
              (⟨pathJoin (pathJoin q LARGE_OBJECT_DIR) f.Name, REFPATH_HEAD, f.Hash⟩ : refPath)
                ∈ out)) ∧
    (∀ out, paths api (fuel + 1) p 0 = some (.ok out) →
      ∀ names q lvl, descend api p 0 names = some (q, lvl) →
        ∃ f sub, paths api f q lvl = some (.ok sub) ∧ ∀ r ∈ sub, r ∈ out) ∧
    (∀ n, wellFormed api n p 0 = true →
      ∃ out, ∀ k, paths api (n + k) p 0 = some (.ok out)) := by
  refine ⟨⟨?_, ?_⟩, ?_, ?_, ?_⟩
  · simp only [paths, hl]
    exact pathsLoop_skip_filter _ _ _ _
  · intro out hout r hr
    simp only [paths, hl] at hout
    obtain ⟨_, _, h3⟩ := pathsLoop_ok _ _ _ _ _ _ hout
    rcases h3 r hr with ho | ⟨l, hlm, hns, hcase⟩
    · exact absurd ho (List.not_mem_nil _)
    · exact ⟨l, hlm, fun hk => hns ⟨hk.1, rfl, hk.2⟩, hcase⟩
  · intro out hout names q lvl hdesc hlvl qlinks hq d hdm hdir hname
    obtain ⟨f, sub, hsub, hin⟩ := paths_descend api names _ _ _ _ _ _ hout hdesc
    obtain ⟨f1, qlinks1, _, hq1, hloop⟩ := paths_ok_unfold api f q lvl sub hsub
    rw [hq] at hq1
    cases hq1
    obtain ⟨_, h2, _⟩ := pathsLoop_ok _ _ _ _ _ _ hloop
    obtain ⟨sub2, hsub2, hin2⟩ := (h2 d hdm).2.2.2 hdir (fun hk => by omega)
    rw [hname] at hsub2
    obtain ⟨f2, olinks, _, ho, hloop2⟩ := paths_ok_unfold api f1 _ _ sub2 hsub2
    refine ⟨olinks, ho, ?_⟩
    intro x hx
    obtain ⟨_, g2, _⟩ := pathsLoop_ok _ _ _ _ _ _ hloop2
    exact ⟨fun h => hin _ (hin2 _ ((g2 x hx).2.1 h)),
      fun h => hin _ (hin2 _ ((g2 x hx).2.2.1 h))⟩
  · intro out hout names q lvl hdesc
    exact paths_descend api names _ _ _ _ _ _ hout hdesc
  · intro n hwf
    obtain ⟨out, hout⟩ := paths_wellFormed api n p 0 hwf
    exact ⟨out, paths_fuel_add api n p 0 _ hout⟩

theorem paths_objects_exclusion_witness :
    nestedShell.List "QmRoot" =
      .ok [⟨"objects", "QmObjs", TDirectory⟩, ⟨"refs", "QmRefs", TDirectory⟩,
           ⟨"HEAD", "QmHead", TFile⟩] ∧
    paths nestedShell (4 + 1) "QmRoot" 0 =
      some (.ok [⟨"QmRoot/refs/heads/team/objects/note", REFPATH_REF, "QmNote"⟩,
        ⟨"QmRoot/refs/heads/team/objects/tip", REFPATH_HEAD, "QmTip"⟩,
        ⟨"QmRoot/refs/heads/master", REFPATH_HEAD, "QmCommit"⟩,
        ⟨"QmRoot/HEAD", REFPATH_REF, "QmHead"⟩]) ∧
    descend nestedShell "QmRoot" 0 ["refs", "heads", "team"] =
      some ("QmRoot/refs/heads/team", 3) ∧
    descend nestedShell "QmRoot" 0 ["objects"] = none ∧
    wellFormed nestedShell 5 "QmRoot" 0 = true ∧
    paths nestedShell (4 + 1) "QmRoot" 0 =
      pathsLoop (paths nestedShell 4) "QmRoot" 0
        ([⟨"objects", "QmObjs", TDirectory⟩, ⟨"refs", "QmRefs", TDirectory⟩,
           ⟨"HEAD", "QmHead", TFile⟩].filter fun l => decide (¬ skipped 0 l)) [] ∧
    (∃ olinks, nestedShell.List (pathJoin "QmRoot/refs/heads/team" LARGE_OBJECT_DIR) =
        .ok olinks ∧
      ∀ f ∈ olinks,
        (f.Type_ = TFile →
          (⟨pathJoin (pathJoin "QmRoot/refs/heads/team" LARGE_OBJECT_DIR) f.Name, REFPATH_REF,
            f.Hash⟩ : refPath) ∈
            [(⟨"QmRoot/refs/heads/team/objects/note", REFPATH_REF, "QmNote"⟩ : refPath),
              ⟨"QmRoot/refs/heads/team/objects/tip", REFPATH_HEAD, "QmTip"⟩,
              ⟨"QmRoot/refs/heads/master", REFPATH_HEAD, "QmCommit"⟩,
              ⟨"QmRoot/HEAD", REFPATH_REF, "QmHead"⟩]) ∧
        (f.Type_ = -1 →
          (⟨pathJoin (pathJoin "QmRoot/refs/heads/team" LARGE_OBJECT_DIR) f.Name, REFPATH_HEAD,
            f.Hash⟩ : refPath) ∈
            [(⟨"QmRoot/refs/heads/team/objects/note", REFPATH_REF, "QmNote"⟩ : refPath),
              ⟨"QmRoot/refs/heads/team/objects/tip", REFPATH_HEAD, "QmTip"⟩,
              ⟨"QmRoot/refs/heads/master", REFPATH_HEAD, "QmCommit"⟩,
              ⟨"QmRoot/HEAD", REFPATH_REF, "QmHead"⟩])) ∧
    ∃ out, ∀ k, paths nestedShell (5 + k) "QmRoot" 0 = some (.ok out) :=
  ⟨by decide, by decide, by decide, by decide, by decide,
   (paths_objects_exclusion nestedShell 4 "QmRoot"
      [⟨"objects", "QmObjs", TDirectory⟩, ⟨"refs", "QmRefs", TDirectory⟩,
       ⟨"HEAD", "QmHead", TFile⟩] (by decide)).1.1,
   (paths_objects_exclusion nestedShell 4 "QmRoot"
      [⟨"objects", "QmObjs", TDirectory⟩, ⟨"refs", "QmRefs", TDirectory⟩,
       ⟨"HEAD", "QmHead", TFile⟩] (by decide)).2.1
     [⟨"QmRoot/refs/heads/team/objects/note", REFPATH_REF, "QmNote"⟩,
      ⟨"QmRoot/refs/heads/team/objects/tip", REFPATH_HEAD, "QmTip"⟩,
      ⟨"QmRoot/refs/heads/master", REFPATH_HEAD, "QmCommit"⟩,
      ⟨"QmRoot/HEAD", REFPATH_REF, "QmHead"⟩] (by decide)
     ["refs", "heads", "team"] "QmRoot/refs/heads/team" 3 (by decide) (by decide)
     [⟨"objects", "QmNested", TDirectory⟩] (by decide)
     ⟨"objects", "QmNested", TDirectory⟩ (by decide) rfl rfl,
   (paths_objects_exclusion nestedShell 4 "QmRoot"
      [⟨"objects", "QmObjs", TDirectory⟩, ⟨"refs", "QmRefs", TDirectory⟩,
       ⟨"HEAD", "QmHead", TFile⟩] (by decide)).2.2.2 5 (by decide)⟩

/-- A listing of leaves only is recorded entry by entry. -/
theorem pathsLoop_leaves (recurse : String → Nat → Option (Except GoError (List refPath)))
    (p : String) (level : Nat) (links : List LsLink)
    (hleaf : ∀ l ∈ links, l.Type_ = TFile ∨ l.Type_ = -1) :
    ∀ out, pathsLoop recurse p level links out = some (.ok (out ++ links.map fun l =>
      ⟨pathJoin p l.Name, if l.Type_ = TFile then REFPATH_REF else REFPATH_HEAD, l.Hash⟩)) := by
  induction links with
  | nil => intro out; simp [pathsLoop]
  | cons l rest ih =>
    intro out
    have hrest : ∀ l ∈ rest, l.Type_ = TFile ∨ l.Type_ = -1 :=
      fun l' hl' => hleaf l' (List.mem_cons_of_mem _ hl')
    unfold pathsLoop
    rcases hleaf l (List.mem_cons_self _ _) with hf | hu
    · have hd : l.Type_ ≠ TDirectory := by rw [hf]; decide
      rw [if_neg hd, if_pos hf, ih hrest]
      simp [hf]
    · have hd : l.Type_ ≠ TDirectory := by rw [hu]; decide
      have hf : l.Type_ ≠ TFile := by rw [hu]; decide
      rw [if_neg hd, if_neg hf, if_pos hu, ih hrest]
      simp [hf]

/-- The loop over a listing in two parts: once the first part is through, the loop
goes on with the second part from the records gathered so far. -/
theorem pathsLoop_append (recurse : String → Nat → Option (Except GoError (List refPath)))
    (p : String) (level : Nat) (pre rest : List LsLink) :
    ∀ out res, pathsLoop recurse p level pre out = some (.ok res) →
      pathsLoop recurse p level (pre ++ rest) out = pathsLoop recurse p level rest res := by
  induction pre with
  | nil =>
    intro out res h
    simp only [pathsLoop, Option.some.injEq, Except.ok.injEq] at h
    rw [List.nil_append, h]
  | cons l more ih =>
    intro out res h
    rw [List.cons_append, pathsLoop]
    rw [pathsLoop] at h
    by_cases hd : l.Type_ = TDirectory
    · rw [if_pos hd] at h ⊢
      by_cases hs : level = 0 ∧ l.Name = LARGE_OBJECT_DIR
      · rw [if_pos hs] at h ⊢
        exact ih _ _ h
      · rw [if_neg hs] at h ⊢
        cases hrec : recurse (pathJoin p l.Name) (level + 1) with
        | none => rw [hrec] at h; simp at h
        | some y =>
          rw [hrec] at h
          cases y with
          | error e => simp at h
          | ok sub => exact ih _ _ h
    · rw [if_neg hd] at h ⊢
      by_cases hf : l.Type_ = TFile
      · rw [if_pos hf] at h ⊢
        exact ih _ _ h
      · rw [if_neg hf] at h ⊢
        by_cases hu : l.Type_ = -1
        · rw [if_pos hu] at h ⊢
          exact ih _ _ h
        · rw [if_neg hu] at h
          simp at h

/-- The loop fails at an entry whose type is none of directory, file, -1, once it
is through the entries before it. -/
theorem pathsLoop_bad_type (recurse : String → Nat → Option (Except GoError (List refPath)))
    (p : String) (level : Nat) (pre : List LsLink) (l : LsLink) (post : List LsLink)
    (out res : List refPath)
    (hpre : pathsLoop recurse p level pre out = some (.ok res))
    (hd : l.Type_ ≠ TDirectory) (hf : l.Type_ ≠ TFile) (hu : l.Type_ ≠ -1) :
    pathsLoop recurse p level (pre ++ l :: post) out =
      some (.error (.errorString ("unexpected link type " ++ toString l.Type_))) := by
  rw [pathsLoop_append _ _ _ _ _ _ _ hpre]
  simp [pathsLoop, hd, hf, hu]

/-- C5 (as stated, fails): an entry whose type is neither file nor directory is
claimed to yield a Head Ref record whatever its type value, the walk never failing
on a type. A root listing `HEAD` (a file) and `latest` with the type tag 4 makes the
walk fail with "unexpected link type 4"; no record is returned. -/
theorem paths_unlisted_type_fails :
    symlinkShell.List "QmRoot" =
      .ok [⟨"HEAD", "QmHead", TFile⟩, ⟨"latest", "QmSym", 4⟩] ∧
    paths symlinkShell 3 "QmRoot" 0 =
      some (.error (.errorString "unexpected link type 4")) := by
  decide

/-- C5 (amended): for a listing `links` of `p`, at any level: when the walk returns
records, every entry has one of the types directory, file, -1, every file entry has
its Symbolic Ref record and every entry of type -1 its Head Ref record, with the
joined path and the entry's identifier; a listing of file and -1 entries only
always returns exactly these records, in order; and an entry whose type is none
of directory, file, -1 makes the walk fail with "unexpected link type", once the
loop is through the entries before it. -/
theorem paths_classification (api : Shell) (fuel : Nat) (p : String) (level : Nat)
    (links : List LsLink) (hl : api.List p = .ok links) :
    (∀ out, paths api (fuel + 1) p level = some (.ok out) → ∀ l ∈ links,
      (l.Type_ = TFile → (⟨pathJoin p l.Name, REFPATH_REF, l.Hash⟩ : refPath) ∈ out) ∧
      (l.Type_ = -1 → (⟨pathJoin p l.Name, REFPATH_HEAD, l.Hash⟩ : refPath) ∈ out) ∧
      (l.Type_ = TDirectory ∨ l.Type_ = TFile ∨ l.Type_ = -1)) ∧
    ((∀ l ∈ links, l.Type_ = TFile ∨ l.Type_ = -1) →
      paths api (fuel + 1) p level = some (.ok (links.map fun l =>
        ⟨pathJoin p l.Name, if l.Type_ = TFile then REFPATH_REF else REFPATH_HEAD, l.Hash⟩))) ∧
    (∀ pre l post res, links = pre ++ l :: post →
      pathsLoop (paths api fuel) p level pre [] = some (.ok res) →
      l.Type_ ≠ TDirectory → l.Type_ ≠ TFile → l.Type_ ≠ -1 →
      paths api (fuel + 1) p level =
        some (.error (.errorString ("unexpected link type " ++ toString l.Type_)))) := by
  refine ⟨?_, ?_, ?_⟩
  · intro out hout l hlm
    simp only [paths, hl] at hout
    obtain ⟨_, h2, _⟩ := pathsLoop_ok _ _ _ _ _ _ hout
    exact ⟨(h2 l hlm).2.1, (h2 l hlm).2.2.1, (h2 l hlm).1⟩
  · intro hleaf
    simp only [paths, hl]
    rw [pathsLoop_leaves _ _ _ _ hleaf]
    simp
  · intro pre l post res hsplit hpre hd hf hu
    simp only [paths, hl]
    rw [hsplit]
    exact pathsLoop_bad_type _ _ _ _ _ _ _ _ hpre hd hf hu

theorem paths_classification_witness :
    treeShell.List "QmRoot/refs/objects" =
      .ok [⟨"note", "QmNote", TFile⟩, ⟨"tip", "QmTip", -1⟩] ∧
    paths treeShell 1 "QmRoot/refs/objects" 2 =
      some (.ok [⟨"QmRoot/refs/objects/note", REFPATH_REF, "QmNote"⟩,
        ⟨"QmRoot/refs/objects/tip", REFPATH_HEAD, "QmTip"⟩]) ∧
    paths treeShell (0 + 1) "QmRoot/refs/objects" 2 =
      some (.ok (([⟨"note", "QmNote", TFile⟩, ⟨"tip", "QmTip", -1⟩] : List LsLink).map fun l =>
        ⟨pathJoin "QmRoot/refs/objects" l.Name,
          if l.Type_ = TFile then REFPATH_REF else REFPATH_HEAD, l.Hash⟩)) ∧
    (⟨pathJoin "QmRoot/refs/objects" "tip", REFPATH_HEAD, "QmTip"⟩ : refPath) ∈
      [(⟨"QmRoot/refs/objects/note", REFPATH_REF, "QmNote"⟩ : refPath),
        ⟨"QmRoot/refs/objects/tip", REFPATH_HEAD, "QmTip"⟩] ∧
    paths symlinkShell 1 "QmRoot" 0 =
      some (.error (.errorString ("unexpected link type " ++ toString (4 : Int)))) :=
  ⟨by decide, by decide,
   (paths_classification treeShell 0 "QmRoot/refs/objects" 2
      [⟨"note", "QmNote", TFile⟩, ⟨"tip", "QmTip", -1⟩] (by decide)).2.1 (by decide),
   ((paths_classification treeShell 0 "QmRoot/refs/objects" 2
      [⟨"note", "QmNote", TFile⟩, ⟨"tip", "QmTip", -1⟩] (by decide)).1 _ (by decide)
      ⟨"tip", "QmTip", -1⟩ (by decide)).2.1 rfl,
   (paths_classification symlinkShell 0 "QmRoot" 0
      [⟨"HEAD", "QmHead", TFile⟩, ⟨"latest", "QmSym", 4⟩] (by decide)).2.2
      [⟨"HEAD", "QmHead", TFile⟩] ⟨"latest", "QmSym", 4⟩ []
      [⟨"QmRoot/HEAD", REFPATH_REF, "QmHead"⟩] rfl (by decide) (by decide)
      (by decide) (by decide)⟩

/-- C6: the threshold of the per-object push callback. With at most 2^21 bytes
(2^21 included) the callback returns success and changes nothing: no call is made,
the root identifier and the tracker are as before. With more than 2^21 bytes it
uploads the bytes, and when the upload returns `c` and the tracker accepts the record
it has written `//lobj/<id>` and patched `objects/<id>` with `c` into the root, the
root identifier being the one the patch returned. The callback makes a call if
and only if the object has more than 2^21 bytes. -/
theorem bigNodePatcher_threshold (env : Env) (w : World) (hash : String) (data : Bytes) :
    (data.length ≤ 2 ^ 21 → bigNodePatcher env w hash data = (none, w)) ∧
    (2 ^ 21 < data.length →
      (∃ rest, (bigNodePatcher env w hash data).2.trace = w.trace ++ Event.shellAdd data :: rest) ∧
      ∀ c, env.api.Add data = .ok c →
        env.faults.setErr (LOBJ_TRACKER_PRIFIX ++ "/" ++ hash) c = none →
        bigNodePatcher env w hash data =
          ((env.api.PatchLink w.h.currentHash ("objects/" ++ hash) c true).2.map
              GoError.errorString,
            { h := { w.h with
                currentHash := (env.api.PatchLink w.h.currentHash ("objects/" ++ hash) c true).1 }
              tracker := mapSet w.tracker (LOBJ_TRACKER_PRIFIX ++ "/" ++ hash) c
              trace := w.trace ++ [Event.shellAdd data,
                Event.trackerSet (LOBJ_TRACKER_PRIFIX ++ "/" ++ hash) c,
                Event.shellPatchLink w.h.currentHash ("objects/" ++ hash) c true] })) ∧
    ((bigNodePatcher env w hash data).2.trace ≠ w.trace ↔ 2 ^ 21 < data.length) := by
  have hsmall : data.length ≤ 2 ^ 21 → bigNodePatcher env w hash data = (none, w) := by
    intro h
    unfold bigNodePatcher
    rw [if_neg (by omega)]
  have hbig : 2 ^ 21 < data.length →
      ∃ rest, (bigNodePatcher env w hash data).2.trace = w.trace ++ Event.shellAdd data :: rest := by
    intro h
    unfold bigNodePatcher
    rw [if_pos h]
    cases hadd : env.api.Add data with
    | error e => exact ⟨[], by simp [World.emit]⟩
    | ok c =>
      cases hset : env.faults.setErr (LOBJ_TRACKER_PRIFIX ++ "/" ++ hash) c with
      | some e =>
        exact ⟨[Event.trackerSet (LOBJ_TRACKER_PRIFIX ++ "/" ++ hash) c],
          by simp [World.emit, trackerSet, hset]⟩
      | none =>
        exact ⟨[Event.trackerSet (LOBJ_TRACKER_PRIFIX ++ "/" ++ hash) c,
            Event.shellPatchLink w.h.currentHash ("objects/" ++ hash) c true],
          by simp [World.emit, trackerSet, hset, patchRoot, World.setRoot]⟩
  refine ⟨hsmall, fun h => ⟨hbig h, ?_⟩, ?_⟩
  · intro c hadd hset
    unfold bigNodePatcher
    rw [if_pos h]
    simp [hadd, trackerSet, hset, patchRoot, World.emit, World.setRoot]
  · constructor
    · intro hne
      by_contra hle
      exact hne (by rw [hsmall (by omega)])
    · intro h hEq
      obtain ⟨rest, hrest⟩ := hbig h
      rw [hrest] at hEq
      simpa using congrArg List.length hEq

theorem bigNodePatcher_threshold_witness :
    (List.replicate (2 ^ 21) 0).length ≤ 2 ^ 21 ∧
    bigNodePatcher okEnv freshWorld "abc" (List.replicate (2 ^ 21) 0) = (none, freshWorld) ∧
    2 ^ 21 < bigData.length ∧
    ∃ rest, (bigNodePatcher okEnv freshWorld "abc" bigData).2.trace =
      freshWorld.trace ++ Event.shellAdd bigData :: rest :=
  ⟨(List.length_replicate _ _).le,
   (bigNodePatcher_threshold okEnv freshWorld "abc" (List.replicate (2 ^ 21) 0)).1
     (List.length_replicate _ _).le,
   by rw [bigData_length]; omega,
   ((bigNodePatcher_threshold okEnv freshWorld "abc" bigData).2.1
     (by rw [bigData_length]; omega)).1⟩

/-- C7: Scenario C. If the store reports that the root has no `objects` link, or
lists `objects` without an entry named `id`, and the index, when it is loaded
already, has no `id` either, then `ProvideBlock(id)` fails with `ErrNotProvided`;
the tracker and the root identifier are unchanged and the only call made is at
most the listing of `objects`: nothing is fetched. -/
theorem ProvideBlock_absent (env : Env) (w : World) (cid : String)
    (hidx : ∀ m, w.h.largeObjs = some m → mapGet m cid = none)
    (hroot : (∃ msg, env.api.List (w.h.currentHash ++ "/" ++ LARGE_OBJECT_DIR) = .error msg ∧
          hasPrefix msg "ls: no link named \"objects\" under" = true) ∨
        (∃ links, env.api.List (w.h.currentHash ++ "/" ++ LARGE_OBJECT_DIR) = .ok links ∧
          ∀ l ∈ links, l.Name ≠ cid)) :
    (ProvideBlock env w cid).1 = .error .ErrNotProvided ∧
    (ProvideBlock env w cid).2.tracker = w.tracker ∧
    (ProvideBlock env w cid).2.h.currentHash = w.h.currentHash ∧
    ((ProvideBlock env w cid).2.trace = w.trace ∨
      (ProvideBlock env w cid).2.trace =
        w.trace ++ [Event.shellList (w.h.currentHash ++ "/" ++ LARGE_OBJECT_DIR)]) := by
  cases hm : w.h.largeObjs with
  | some m =>
    have hg := hidx m hm
    simp [ProvideBlock, hm, hg]
  | none =>
    rcases hroot with ⟨msg, hl, hp⟩ | ⟨links, hl, hn⟩
    · simp [ProvideBlock, hm, loadObjectMap, hl, hp, World.emit, mapGet]
    · have hk := mapGet_foldl_absent cid links [] hn rfl
      simp [ProvideBlock, hm, loadObjectMap, hl, World.emit, hk]

theorem ProvideBlock_absent_witness :
    (∀ m, freshWorld.h.largeObjs = some m → mapGet m "abc" = none) ∧
    okEnv.api.List (freshWorld.h.currentHash ++ "/" ++ LARGE_OBJECT_DIR) =
      .error "ls: no link named \"objects\" under QmRoot/objects" ∧
    (ProvideBlock okEnv freshWorld "abc").1 = .error .ErrNotProvided ∧
    (ProvideBlock okEnv freshWorld "abc").2.tracker = freshWorld.tracker ∧
    (ProvideBlock okEnv freshWorld "abc").2.h.currentHash = freshWorld.h.currentHash ∧
    ((ProvideBlock okEnv freshWorld "abc").2.trace = freshWorld.trace ∨
      (ProvideBlock okEnv freshWorld "abc").2.trace =
        freshWorld.trace ++
          [Event.shellList (freshWorld.h.currentHash ++ "/" ++ LARGE_OBJECT_DIR)]) :=
  ⟨by decide, by decide,
   ProvideBlock_absent okEnv freshWorld "abc" (by decide)
     (Or.inl ⟨"ls: no link named \"objects\" under QmRoot/objects", by decide, by decide⟩)⟩

/-- C8 (fails on the code): no rollback on failure. When the patch of the ref fails,
`Push` returns an error and the root identifier, `QmRoot` before the call, is the
empty string the failing patch returned. When the patch of the default `HEAD`
fails after the ref patch produced `QmRoot+refs/heads/main=QmCommit`, the root
identifier is again the empty string, not the identifier of the last successful
patch. -/
theorem Push_failed_patch_replaces_root :
    Push (failingPatchEnv "refs/heads/main") freshWorld "refs/heads/main" "refs/heads/main" =
      (.error (.errorString "push: patch failed"),
        ⟨⟨"QmRoot", "", none, true⟩, [("refs/heads/main", stringOfBytes demoHash)],
          [.trackerSet "refs/heads/main" (stringOfBytes demoHash),
           .shellPatchLink "QmRoot" "refs/heads/main" "QmCommit" true]⟩) ∧
    Push (failingPatchEnv "HEAD") freshWorld "refs/heads/main" "refs/heads/main" =
      (.error (.errorString "push: patch failed"),
        ⟨⟨"QmRoot", "", none, true⟩, [("refs/heads/main", stringOfBytes demoHash)],
          [.trackerSet "refs/heads/main" (stringOfBytes demoHash),
           .shellPatchLink "QmRoot" "refs/heads/main" "QmCommit" true,
           .shellCat "QmRoot/HEAD",
           .shellAdd (bytesOfString "refs/heads/master"),
           .shellPatchLink "QmRoot+refs/heads/main=QmCommit" "HEAD" "QmHeadLeaf" true]⟩) := by
  decide

/-- C9 (fails on the code): default `HEAD` creation. `Push` looks for `HEAD` under
the remote name the session started from (`QmRoot/HEAD`), not under the current
root. Pushing to the remote ref `HEAD` patches `HEAD` to the commit, and the
current tree `QmRoot+HEAD=QmCommit` has a `HEAD`; the default leaf is added and
patched over it all the same. A second push of the session, after the first one
created the default `HEAD`, adds and patches the default `HEAD` again, although
the current tree has it. -/
theorem Push_default_HEAD_reads_remoteName :
    okShell.Cat (pathJoin "QmRoot+HEAD=QmCommit" "HEAD") =
      .ok (.ok (bytesOfString "tree 4b825dc6")) ∧
    Push okEnv freshWorld "refs/heads/main" "HEAD" =
      (.ok "refs/heads/main",
        ⟨⟨"QmRoot", "QmRoot+HEAD=QmCommit+HEAD=QmHeadLeaf", none, true⟩,
          [("HEAD", stringOfBytes demoHash)],
          [.trackerSet "HEAD" (stringOfBytes demoHash),
           .shellPatchLink "QmRoot" "HEAD" "QmCommit" true,
           .shellCat "QmRoot/HEAD",
           .shellAdd (bytesOfString "refs/heads/master"),
           .shellPatchLink "QmRoot+HEAD=QmCommit" "HEAD" "QmHeadLeaf" true]⟩) ∧
    (Push okEnv (Push okEnv freshWorld "refs/heads/a" "refs/heads/a").2
        "refs/heads/b" "refs/heads/b").2.trace =
      [.trackerSet "refs/heads/a" (stringOfBytes demoHash),
       .shellPatchLink "QmRoot" "refs/heads/a" "QmCommit" true,
       .shellCat "QmRoot/HEAD",
       .shellAdd (bytesOfString "refs/heads/master"),
       .shellPatchLink "QmRoot+refs/heads/a=QmCommit" "HEAD" "QmHeadLeaf" true,
       .trackerSet "refs/heads/b" (stringOfBytes demoHash),
       .shellPatchLink "QmRoot+refs/heads/a=QmCommit+HEAD=QmHeadLeaf" "refs/heads/b"
         "QmCommit" true,
       .shellCat "QmRoot/HEAD",
       .shellAdd (bytesOfString "refs/heads/master"),
       .shellPatchLink "QmRoot+refs/heads/a=QmCommit+HEAD=QmHeadLeaf+refs/heads/b=QmCommit"
         "HEAD" "QmHeadLeaf" true] ∧
    okShell.Cat
        (pathJoin "QmRoot+refs/heads/a=QmCommit+HEAD=QmHeadLeaf+refs/heads/b=QmCommit" "HEAD") =
      .ok (.ok (bytesOfString "refs/heads/master")) := by
  decide

/-- C10 (fails on the code): tracker failures abort. The tracker refuses the record
of the pushed hash under `refs/heads/main`; `Push` drops the error of that `Set`,
patches the ref and the default `HEAD` into the root, and returns success. -/
theorem Push_ignores_tracker_failure :
    failingTrackerEnv.faults.setErr "refs/heads/main" (stringOfBytes demoHash) =
      some "tracker: write failed" ∧
    Push failingTrackerEnv freshWorld "refs/heads/main" "refs/heads/main" =
      (.ok "refs/heads/main",
        ⟨⟨"QmRoot", "QmRoot+refs/heads/main=QmCommit+HEAD=QmHeadLeaf", none, true⟩, [],
          [.trackerSet "refs/heads/main" (stringOfBytes demoHash),
           .shellPatchLink "QmRoot" "refs/heads/main" "QmCommit" true,
           .shellCat "QmRoot/HEAD",
           .shellAdd (bytesOfString "refs/heads/master"),
           .shellPatchLink "QmRoot+refs/heads/main=QmCommit" "HEAD" "QmHeadLeaf" true]⟩) := by
  decide

end GitRemoteIpns
